import Mathlib

/-!
Verification of the text-run grouping engine of the import-pdf plugin.

The embedded code is `groupTextItems` from `src/ui/worker/paragraph-grouper.ts`
together with the `TextItem` and `Paragraph` interfaces it operates on.

Modelling conventions:
* JS numbers are modelled as rationals (`ℚ`); all arithmetic performed by the
  engine is exact, so no floating-point rounding is modelled.  `Math.abs` and
  `Math.max` are modelled by `mathAbs` and `mathMax` below.
* JS strings are modelled as `List Char`; `String.prototype.trim` is modelled
  by stripping characters satisfying `Char.isWhitespace` from both ends.
* The field `fontWeight: string | number` is modelled as `String ⊕ ℚ`;
  optional fields (`color?`, `letterSpacing?`, `lineHeight?`) as `Option`.
  JS strict equality on these fields coincides with equality of the models.
* `Array.prototype.sort` (a stable comparison sort in every modern engine) is
  modelled by `List.mergeSort` over the boolean relation `compare ≤ 0`.
-/

namespace PdfImport

/-- A JS string, modelled as its list of characters. -/
abbrev JSString := List Char

/-- Model of the TS union type `string | number` used for `fontWeight`. -/
abbrev StrOrNum := String ⊕ ℚ

/-- Model of `Math.abs`. -/
def mathAbs (q : ℚ) : ℚ := if q < 0 then -q else q

/-- Model of `Math.max` (on two non-NaN arguments). -/
def mathMax (a b : ℚ) : ℚ := if a < b then b else a

/-- Model of `s.trim()`: drop whitespace characters from both ends. -/
def jsTrim (s : JSString) : JSString :=
  ((s.dropWhile Char.isWhitespace).reverse.dropWhile Char.isWhitespace).reverse

/-- Model of the emptiness test `!s.trim()`: the trimmed string is empty. -/
def blankStr (s : JSString) : Prop :=
  jsTrim s = []

instance (s : JSString) : Decidable (blankStr s) :=
  inferInstanceAs (Decidable (jsTrim s = []))

/-- Model of `s.startsWith(' ')` (a single space character, U+0020). -/
def startsWithSpace (s : JSString) : Prop :=
  s.head? = some ' '

instance (s : JSString) : Decidable (startsWithSpace s) :=
  inferInstanceAs (Decidable (s.head? = some ' '))

/-- The `TextItem` interface of `paragraph-grouper.ts` (the constant
discriminator field `type: 'text'` is omitted; `transform` is carried
but never read by the grouping engine). -/
structure TextItem where
  str : JSString
  x : ℚ
  y : ℚ
  width : ℚ
  height : ℚ
  fontSize : ℚ
  fontFamily : String
  fontWeight : StrOrNum
  fontStyle : String
  color : Option String
  letterSpacing : Option ℚ
  lineHeight : Option ℚ
  transform : List ℚ
deriving DecidableEq, Repr

/-- The `Paragraph` interface of `paragraph-grouper.ts` (constant
discriminator field `type: 'paragraph'` omitted). -/
structure Paragraph where
  text : JSString
  x : ℚ
  y : ℚ
  width : ℚ
  fontSize : ℚ
  fontFamily : String
  fontWeight : StrOrNum
  fontStyle : String
  color : Option String
  letterSpacing : Option ℚ
  lineHeight : Option ℚ
deriving DecidableEq, Repr

/-- The sort comparator of `groupTextItems`:
`const yDiff = b.y - a.y; if (Math.abs(yDiff) > 5) return yDiff; return a.x - b.x`. -/
def compareItems (a b : TextItem) : ℚ :=
  let yDiff := b.y - a.y
  if mathAbs yDiff > 5 then yDiff else a.x - b.x

/-- Model of `[...items].sort(comparator)`: a stable merge sort ordered by
`compareItems · · ≤ 0`. -/
def sortItems (items : List TextItem) : List TextItem :=
  items.mergeSort (fun a b => decide (compareItems a b ≤ 0))

/-- The paragraph literal built from a single item, used both when a paragraph
is started on empty state and when a run closes the current paragraph. -/
def newPara (item : TextItem) : Paragraph :=
  { text := item.str
    x := item.x
    y := item.y
    width := item.width
    fontSize := item.fontSize
    fontFamily := item.fontFamily
    fontWeight := item.fontWeight
    fontStyle := item.fontStyle
    color := item.color
    letterSpacing := item.letterSpacing
    lineHeight := item.lineHeight }

/-- Heuristic 1 of `groupTextItems` (`sameStyle`). -/
def sameStyle (item : TextItem) (currentPara : Paragraph) : Prop :=
  item.fontFamily = currentPara.fontFamily ∧
  mathAbs (item.fontSize - currentPara.fontSize) < 1 ∧
  item.fontWeight = currentPara.fontWeight ∧
  item.fontStyle = currentPara.fontStyle ∧
  item.color = currentPara.color

instance (item : TextItem) (currentPara : Paragraph) :
    Decidable (sameStyle item currentPara) := by
  unfold sameStyle
  infer_instance

/-- Heuristic 2 of `groupTextItems` (`isNextLine`):
`verticalGap > 0 && verticalGap < item.fontSize * 2.5` with
`verticalGap = lastItem.y - item.y`. -/
def isNextLine (item lastItem : TextItem) : Prop :=
  lastItem.y - item.y > 0 ∧ lastItem.y - item.y < item.fontSize * 2.5

instance (item lastItem : TextItem) : Decidable (isNextLine item lastItem) := by
  unfold isNextLine
  infer_instance

/-- Heuristic 3 of `groupTextItems` (`alignedLeft`). -/
def alignedLeft (item : TextItem) (currentPara : Paragraph) : Prop :=
  mathAbs (item.x - currentPara.x) < 20

instance (item : TextItem) (currentPara : Paragraph) :
    Decidable (alignedLeft item currentPara) := by
  unfold alignedLeft
  infer_instance

/-- Heuristic 4 of `groupTextItems` (`sameLine`):
`Math.abs(item.y - lastItem.y) < Math.max(2, item.fontSize * 0.25)`. -/
def sameLine (item lastItem : TextItem) : Prop :=
  mathAbs (item.y - lastItem.y) < mathMax 2 (item.fontSize * 0.25)

instance (item lastItem : TextItem) : Decidable (sameLine item lastItem) := by
  unfold sameLine
  infer_instance

/-- The text-append rule used on every merge:
`currentPara.text += (item.str.startsWith(' ') ? '' : ' ') + item.str`. -/
def appendText (t s : JSString) : JSString :=
  t ++ (if startsWithSpace s then [] else [' ']) ++ s

/-- The same-line merge of `groupTextItems`: append the run's text and extend
the width to `Math.max(currentPara.width, (item.x + item.width) - currentPara.x)`. -/
def mergeSameLine (currentPara : Paragraph) (item : TextItem) : Paragraph :=
  { currentPara with
      text := appendText currentPara.text item.str,
      width := mathMax currentPara.width ((item.x + item.width) - currentPara.x) }

/-- The next-line merge of `groupTextItems`: append the run's text and extend
the width to `Math.max(currentPara.width, item.width)`. -/
def mergeNextLine (currentPara : Paragraph) (item : TextItem) : Paragraph :=
  { currentPara with
      text := appendText currentPara.text item.str,
      width := mathMax currentPara.width item.width }

/-- The loop state of `groupTextItems`: emitted paragraphs plus, when a
paragraph is open, the pair (`currentPara`, `lastItem`).  In the source
`lastItem` is non-null whenever `currentPara` is, so the two nullable
variables are modelled as one `Option` of a pair. -/
structure GState where
  paragraphs : List Paragraph
  current : Option (Paragraph × TextItem)
deriving DecidableEq, Repr

/-- One iteration of the `for (const item of sorted)` loop of
`groupTextItems`. -/
def stepGroup (s : GState) (item : TextItem) : GState :=
  if blankStr item.str then s
  else
    match s.current with
    | none => { s with current := some (newPara item, item) }
    | some (currentPara, lastItem) =>
      if sameStyle item currentPara ∧
         ((isNextLine item lastItem ∧ alignedLeft item currentPara) ∨
          sameLine item lastItem) then
        if sameLine item lastItem then
          { s with current := some (mergeSameLine currentPara item, item) }
        else
          { s with current := some (mergeNextLine currentPara item, item) }
      else
        { paragraphs := s.paragraphs ++ [currentPara]
          current := some (newPara item, item) }

/-- The final flush: `if (currentPara) paragraphs.push(currentPara)`. -/
def finishGroup (s : GState) : List Paragraph :=
  match s.current with
  | some (p, _) => s.paragraphs ++ [p]
  | none => s.paragraphs

/-- The grouping pass of `groupTextItems` over an already sorted sequence. -/
def groupPass (items : List TextItem) : List Paragraph :=
  finishGroup (items.foldl stepGroup ⟨[], none⟩)

/-- The function `groupTextItems` of `paragraph-grouper.ts`. -/
def groupTextItems (items : List TextItem) : List Paragraph :=
  if items = [] then [] else groupPass (sortItems items)

/-! Step-characterisation lemmas for `stepGroup`, mirroring the five
control-flow paths of the loop body. -/

lemma stepGroup_of_blank (s : GState) (item : TextItem) (h : blankStr item.str) :
    stepGroup s item = s := by
  simp [stepGroup, h]

lemma stepGroup_of_none (s : GState) (item : TextItem)
    (hb : ¬ blankStr item.str) (hc : s.current = none) :
    stepGroup s item = { s with current := some (newPara item, item) } := by
  simp [stepGroup, hb, hc]

lemma stepGroup_merge_sameLine (s : GState) (cp : Paragraph) (li item : TextItem)
    (hc : s.current = some (cp, li)) (hb : ¬ blankStr item.str)
    (hst : sameStyle item cp) (hsl : sameLine item li) :
    stepGroup s item = { s with current := some (mergeSameLine cp item, item) } := by
  simp [stepGroup, hb, hc, hst, hsl]

lemma stepGroup_merge_nextLine (s : GState) (cp : Paragraph) (li item : TextItem)
    (hc : s.current = some (cp, li)) (hb : ¬ blankStr item.str)
    (hst : sameStyle item cp) (hnl : isNextLine item li) (hal : alignedLeft item cp)
    (hns : ¬ sameLine item li) :
    stepGroup s item = { s with current := some (mergeNextLine cp item, item) } := by
  simp [stepGroup, hb, hc, hst, hnl, hal, hns]

lemma stepGroup_close (s : GState) (cp : Paragraph) (li item : TextItem)
    (hc : s.current = some (cp, li)) (hb : ¬ blankStr item.str)
    (h : ¬ (sameStyle item cp ∧
           ((isNextLine item li ∧ alignedLeft item cp) ∨ sameLine item li))) :
    stepGroup s item =
      { paragraphs := s.paragraphs ++ [cp], current := some (newPara item, item) } := by
  simp [stepGroup, hb, hc, h]

/-! Evaluation lemmas for `sortItems` on short lists. -/

lemma sortItems_pair (a b : TextItem) (h : compareItems a b ≤ 0) :
    sortItems [a, b] = [a, b] := by
  simp [sortItems, List.mergeSort, List.merge, h]

lemma sortItems_triple (a b c : TextItem)
    (hab : compareItems a b ≤ 0) (hbc : compareItems b c ≤ 0)
    (hac : compareItems a c ≤ 0) :
    sortItems [a, b, c] = [a, b, c] := by
  simp [sortItems, List.mergeSort, List.merge, hab, hbc, hac]

/-! A run-tracking refinement of the grouping pass.  `stepGroupW` is
`stepGroup` enriched with the list of runs that were merged into each
paragraph; `stepGroup_projW` proves that forgetting the run lists gives back
exactly the embedded source semantics, so coverage and style invariants
proved on the enriched pass transfer to `groupTextItems`. -/

/-- Enriched grouping state: each emitted paragraph is paired with the runs
merged into it, and the open paragraph carries its runs as well. -/
structure GStateW where
  paragraphs : List (Paragraph × List TextItem)
  current : Option (Paragraph × TextItem × List TextItem)
deriving DecidableEq, Repr

/-- Enriched loop body: identical control flow to `stepGroup`, additionally
recording the run responsible for each mutation. -/
def stepGroupW (s : GStateW) (item : TextItem) : GStateW :=
  if blankStr item.str then s
  else
    match s.current with
    | none => { s with current := some (newPara item, item, [item]) }
    | some (currentPara, lastItem, runs) =>
      if sameStyle item currentPara ∧
         ((isNextLine item lastItem ∧ alignedLeft item currentPara) ∨
          sameLine item lastItem) then
        if sameLine item lastItem then
          { s with current := some (mergeSameLine currentPara item, item, runs ++ [item]) }
        else
          { s with current := some (mergeNextLine currentPara item, item, runs ++ [item]) }
      else
        { paragraphs := s.paragraphs ++ [(currentPara, runs)],
          current := some (newPara item, item, [item]) }

/-- Enriched final flush. -/
def finishGroupW (s : GStateW) : List (Paragraph × List TextItem) :=
  match s.current with
  | some (p, _, runs) => s.paragraphs ++ [(p, runs)]
  | none => s.paragraphs

/-- Enriched grouping pass. -/
def groupPassW (items : List TextItem) : List (Paragraph × List TextItem) :=
  finishGroupW (items.foldl stepGroupW ⟨[], none⟩)

/-- `groupTextItems` enriched with the runs merged into each paragraph. -/
def groupWithRuns (items : List TextItem) : List (Paragraph × List TextItem) :=
  if items = [] then [] else groupPassW (sortItems items)

/-- Forget the run lists of an enriched state. -/
def projW (s : GStateW) : GState :=
  { paragraphs := s.paragraphs.map Prod.fst,
    current := s.current.map (fun pr => (pr.1, pr.2.1)) }

lemma stepGroup_projW (s : GStateW) (item : TextItem) :
    stepGroup (projW s) item = projW (stepGroupW s item) := by
  by_cases hb : blankStr item.str
  · simp [stepGroup, stepGroupW, hb]
  · cases hc : s.current with
    | none => simp [stepGroup, stepGroupW, projW, hb, hc]
    | some pr =>
      obtain ⟨cp, li, runs⟩ := pr
      by_cases hm : sameStyle item cp ∧
          ((isNextLine item li ∧ alignedLeft item cp) ∨ sameLine item li)
      · by_cases hsl : sameLine item li
        · simp [stepGroup, stepGroupW, projW, hb, hc, hm, hsl]
        · have hnl : isNextLine item li ∧ alignedLeft item cp := hm.2.resolve_right hsl
          simp [stepGroup, stepGroupW, projW, hb, hc, hm, hsl, hnl]
      · simp [stepGroup, stepGroupW, projW, hb, hc, hm]

lemma foldl_stepGroup_projW (l : List TextItem) (s : GStateW) :
    l.foldl stepGroup (projW s) = projW (l.foldl stepGroupW s) := by
  induction l generalizing s with
  | nil => rfl
  | cons a l ih => simpa [stepGroup_projW] using ih (stepGroupW s a)

lemma finishGroup_projW (s : GStateW) :
    finishGroup (projW s) = (finishGroupW s).map Prod.fst := by
  cases hc : s.current with
  | none => simp [finishGroup, finishGroupW, projW, hc]
  | some pr => simp [finishGroup, finishGroupW, projW, hc]

lemma groupPass_eq_projW (items : List TextItem) :
    groupPass items = (groupPassW items).map Prod.fst := by
  have h0 : (⟨[], none⟩ : GState) = projW ⟨[], none⟩ := rfl
  simp [groupPass, groupPassW, h0, foldl_stepGroup_projW, finishGroup_projW]

lemma groupTextItems_eq_projW (items : List TextItem) :
    groupTextItems items = (groupWithRuns items).map Prod.fst := by
  by_cases h : items = []
  · simp [groupTextItems, groupWithRuns, h]
  · simp [groupTextItems, groupWithRuns, h, groupPass_eq_projW]

/-! Coverage: the runs recorded by the enriched pass are exactly the
non-blank items, in processing order. -/

/-- All runs recorded in an enriched state, in order. -/
def runsIn (s : GStateW) : List TextItem :=
  (s.paragraphs.map Prod.snd).flatten ++
    (match s.current with
     | some pr => pr.2.2
     | none => [])

lemma runsIn_step (s : GStateW) (item : TextItem) :
    runsIn (stepGroupW s item) =
      runsIn s ++ (if blankStr item.str then [] else [item]) := by
  by_cases hb : blankStr item.str
  · simp [stepGroupW, hb]
  · cases hc : s.current with
    | none => simp [stepGroupW, runsIn, hb, hc]
    | some pr =>
      obtain ⟨cp, li, runs⟩ := pr
      by_cases hm : sameStyle item cp ∧
          ((isNextLine item li ∧ alignedLeft item cp) ∨ sameLine item li)
      · by_cases hsl : sameLine item li
        · simp [stepGroupW, runsIn, hb, hc, hm, hsl]
        · have hnl : isNextLine item li ∧ alignedLeft item cp := hm.2.resolve_right hsl
          simp [stepGroupW, runsIn, hb, hc, hm, hsl, hnl]
      · simp [stepGroupW, runsIn, hb, hc, hm]

lemma runsIn_foldl (l : List TextItem) (s : GStateW) :
    runsIn (l.foldl stepGroupW s) =
      runsIn s ++ l.filter (fun i => decide (¬ blankStr i.str)) := by
  induction l generalizing s with
  | nil => simp
  | cons a l ih =>
    by_cases hb : blankStr a.str
    · simp [List.foldl, ih, runsIn_step, hb, List.filter]
    · simp [List.foldl, ih, runsIn_step, hb, List.filter]

lemma flatten_finishGroupW (s : GStateW) :
    ((finishGroupW s).map Prod.snd).flatten = runsIn s := by
  cases hc : s.current with
  | none => simp [finishGroupW, runsIn, hc]
  | some pr => simp [finishGroupW, runsIn, hc]

lemma flatten_groupWithRuns (items : List TextItem) :
    ((groupWithRuns items).map Prod.snd).flatten =
      (sortItems items).filter (fun i => decide (¬ blankStr i.str)) := by
  by_cases h : items = []
  · subst h
    simp [groupWithRuns, sortItems, List.mergeSort]
  · have : runsIn (⟨[], none⟩ : GStateW) = [] := rfl
    simp [groupWithRuns, groupPassW, h, flatten_finishGroupW, runsIn_foldl, this]

lemma sortItems_perm (items : List TextItem) : (sortItems items).Perm items :=
  List.mergeSort_perm items _

/-! String lemmas about the `trim`-emptiness test. -/

lemma blankStr_iff_forall (s : JSString) :
    blankStr s ↔ ∀ c ∈ s, c.isWhitespace = true := by
  unfold blankStr jsTrim
  rw [List.reverse_eq_nil_iff, List.dropWhile_eq_nil_iff]
  constructor
  · intro h c hcs
    have hsplit := List.takeWhile_append_dropWhile Char.isWhitespace s
    have : c ∈ s.takeWhile Char.isWhitespace ++ s.dropWhile Char.isWhitespace := by
      rw [hsplit]; exact hcs
    rcases List.mem_append.mp this with h1 | h2
    · exact List.mem_takeWhile_imp h1
    · exact h c (List.mem_reverse.mpr h2)
  · intro h c hc
    exact h c ((List.dropWhile_sublist Char.isWhitespace).mem (List.mem_reverse.mp hc))

lemma not_blankStr_appendText (t s : JSString) (h : ¬ blankStr t) :
    ¬ blankStr (appendText t s) := by
  intro hall
  apply h
  rw [blankStr_iff_forall] at hall ⊢
  intro c hc
  exact hall c (by simp [appendText]; tauto)

/-! Invariant: every paragraph text held by the grouping state is non-blank. -/

/-- All paragraph texts in a grouping state are non-blank. -/
def textsNB (s : GState) : Prop :=
  (∀ p ∈ s.paragraphs, ¬ blankStr p.text) ∧
  ∀ p li, s.current = some (p, li) → ¬ blankStr p.text

lemma textsNB_step (s : GState) (item : TextItem) (h : textsNB s) :
    textsNB (stepGroup s item) := by
  by_cases hb : blankStr item.str
  · rw [stepGroup_of_blank s item hb]; exact h
  · cases hc : s.current with
    | none =>
      rw [stepGroup_of_none s item hb hc]
      exact ⟨h.1, by intro p li hp; simp at hp; rw [← hp.1]; simpa [newPara] using hb⟩
    | some pr =>
      obtain ⟨cp, li⟩ := pr
      have hcp : ¬ blankStr cp.text := h.2 cp li hc
      by_cases hm : sameStyle item cp ∧
          ((isNextLine item li ∧ alignedLeft item cp) ∨ sameLine item li)
      · by_cases hsl : sameLine item li
        · rw [stepGroup_merge_sameLine s cp li item hc hb hm.1 hsl]
          refine ⟨h.1, ?_⟩
          intro p l hp
          simp at hp
          rw [← hp.1]
          simpa [mergeSameLine] using not_blankStr_appendText cp.text item.str hcp
        · have hnl : isNextLine item li ∧ alignedLeft item cp := hm.2.resolve_right hsl
          rw [stepGroup_merge_nextLine s cp li item hc hb hm.1 hnl.1 hnl.2 hsl]
          refine ⟨h.1, ?_⟩
          intro p l hp
          simp at hp
          rw [← hp.1]
          simpa [mergeNextLine] using not_blankStr_appendText cp.text item.str hcp
      · rw [stepGroup_close s cp li item hc hb hm]
        refine ⟨?_, ?_⟩
        · intro p hp
          rcases List.mem_append.mp hp with h1 | h2
          · exact h.1 p h1
          · simp at h2; rw [h2]; exact hcp
        · intro p l hp
          simp at hp
          rw [← hp.1]
          simpa [newPara] using hb

lemma textsNB_foldl (l : List TextItem) (s : GState) (h : textsNB s) :
    textsNB (l.foldl stepGroup s) := by
  induction l generalizing s with
  | nil => exact h
  | cons a l ih => exact ih _ (textsNB_step s a h)

lemma textsNB_finish (s : GState) (h : textsNB s) :
    ∀ p ∈ finishGroup s, ¬ blankStr p.text := by
  intro p hp
  cases hc : s.current with
  | none =>
    rw [finishGroup, hc] at hp
    exact h.1 p hp
  | some pr =>
    obtain ⟨q, li⟩ := pr
    rw [finishGroup, hc] at hp
    rcases List.mem_append.mp hp with h1 | h2
    · exact h.1 p h1
    · simp at h2; rw [h2]; exact h.2 q li hc

lemma groupTextItems_text_not_blank (items : List TextItem) :
    ∀ p ∈ groupTextItems items, ¬ blankStr p.text := by
  by_cases h : items = []
  · simp [groupTextItems, h]
  · intro p hp
    rw [groupTextItems, if_neg h] at hp
    exact textsNB_finish _
      (textsNB_foldl (sortItems items) ⟨[], none⟩ (by constructor <;> simp [GState.paragraphs])) p hp

/-! Invariant: every paragraph group is headed by its first run, carries that
run's style and origin, accumulates its text by the append rule, and contains
only runs style-compatible with the paragraph. -/

/-- The text obtained by seeding with the first run's text and applying the
append rule for each later run. -/
def textOfRuns (hd : TextItem) (tl : List TextItem) : JSString :=
  tl.foldl (fun acc r => appendText acc r.str) hd.str

/-- A paragraph paired with its runs is well-formed: the run list is
non-empty, the paragraph's origin and style are those of the first run, its
text is the append-rule fold of the runs' texts, and every run in it is
style-compatible with the paragraph. -/
def goodGroup (pr : Paragraph × List TextItem) : Prop :=
  ∃ hd tl, pr.2 = hd :: tl ∧
    pr.1.x = hd.x ∧ pr.1.y = hd.y ∧ pr.1.fontSize = hd.fontSize ∧
    pr.1.fontFamily = hd.fontFamily ∧ pr.1.fontWeight = hd.fontWeight ∧
    pr.1.fontStyle = hd.fontStyle ∧ pr.1.color = hd.color ∧
    pr.1.letterSpacing = hd.letterSpacing ∧ pr.1.lineHeight = hd.lineHeight ∧
    pr.1.text = textOfRuns hd tl ∧
    ∀ r ∈ pr.2, sameStyle r pr.1

lemma sameStyle_mergeSameLine (r : TextItem) (cp : Paragraph) (item : TextItem) :
    sameStyle r (mergeSameLine cp item) ↔ sameStyle r cp := by
  simp [sameStyle, mergeSameLine]

lemma sameStyle_mergeNextLine (r : TextItem) (cp : Paragraph) (item : TextItem) :
    sameStyle r (mergeNextLine cp item) ↔ sameStyle r cp := by
  simp [sameStyle, mergeNextLine]

lemma goodGroup_newPara (item : TextItem) : goodGroup (newPara item, [item]) := by
  refine ⟨item, [], rfl, ?_⟩
  simp [newPara, textOfRuns, sameStyle, mathAbs]

lemma textOfRuns_append (hd : TextItem) (tl : List TextItem) (item : TextItem) :
    textOfRuns hd (tl ++ [item]) = appendText (textOfRuns hd tl) item.str := by
  simp [textOfRuns]

lemma goodGroup_mergeSameLine (cp : Paragraph) (runs : List TextItem) (item : TextItem)
    (hg : goodGroup (cp, runs)) (hst : sameStyle item cp) :
    goodGroup (mergeSameLine cp item, runs ++ [item]) := by
  obtain ⟨hd, tl, hruns, hx, hy, hfs, hff, hfw, hfsty, hcol, hls, hlh, htext, hall⟩ := hg
  dsimp only at hruns hx hy hfs hff hfw hfsty hcol hls hlh htext hall
  refine ⟨hd, tl ++ [item], by simp [hruns], ?_⟩
  refine ⟨by simpa [mergeSameLine] using hx, by simpa [mergeSameLine] using hy,
    by simpa [mergeSameLine] using hfs, by simpa [mergeSameLine] using hff,
    by simpa [mergeSameLine] using hfw, by simpa [mergeSameLine] using hfsty,
    by simpa [mergeSameLine] using hcol, by simpa [mergeSameLine] using hls,
    by simpa [mergeSameLine] using hlh, ?_, ?_⟩
  · rw [textOfRuns_append]
    simp [mergeSameLine, htext]
  · intro r hr
    rw [sameStyle_mergeSameLine]
    rcases List.mem_append.mp hr with h1 | h2
    · exact hall r h1
    · simp at h2; rw [h2]; exact hst

lemma goodGroup_mergeNextLine (cp : Paragraph) (runs : List TextItem) (item : TextItem)
    (hg : goodGroup (cp, runs)) (hst : sameStyle item cp) :
    goodGroup (mergeNextLine cp item, runs ++ [item]) := by
  obtain ⟨hd, tl, hruns, hx, hy, hfs, hff, hfw, hfsty, hcol, hls, hlh, htext, hall⟩ := hg
  dsimp only at hruns hx hy hfs hff hfw hfsty hcol hls hlh htext hall
  refine ⟨hd, tl ++ [item], by simp [hruns], ?_⟩
  refine ⟨by simpa [mergeNextLine] using hx, by simpa [mergeNextLine] using hy,
    by simpa [mergeNextLine] using hfs, by simpa [mergeNextLine] using hff,
    by simpa [mergeNextLine] using hfw, by simpa [mergeNextLine] using hfsty,
    by simpa [mergeNextLine] using hcol, by simpa [mergeNextLine] using hls,
    by simpa [mergeNextLine] using hlh, ?_, ?_⟩
  · rw [textOfRuns_append]
    simp [mergeNextLine, htext]
  · intro r hr
    rw [sameStyle_mergeNextLine]
    rcases List.mem_append.mp hr with h1 | h2
    · exact hall r h1
    · simp at h2; rw [h2]; exact hst

/-- All groups held by an enriched grouping state are well-formed. -/
def wfW (s : GStateW) : Prop :=
  (∀ pr ∈ s.paragraphs, goodGroup pr) ∧
  ∀ p li runs, s.current = some (p, li, runs) → goodGroup (p, runs)

lemma wfW_step (s : GStateW) (item : TextItem) (h : wfW s) :
    wfW (stepGroupW s item) := by
  by_cases hb : blankStr item.str
  · simpa [stepGroupW, hb] using h
  · cases hc : s.current with
    | none =>
      refine ⟨by simpa [stepGroupW, hb, hc] using h.1, ?_⟩
      intro p li runs hp
      simp [stepGroupW, hb, hc] at hp
      rw [← hp.1, ← hp.2.2]
      exact goodGroup_newPara item
    | some pr =>
      obtain ⟨cp, li, runs⟩ := pr
      have hcur : goodGroup (cp, runs) := h.2 cp li runs hc
      by_cases hm : sameStyle item cp ∧
          ((isNextLine item li ∧ alignedLeft item cp) ∨ sameLine item li)
      · by_cases hsl : sameLine item li
        · refine ⟨by simpa [stepGroupW, hb, hc, hm, hsl] using h.1, ?_⟩
          intro p l rs hp
          simp [stepGroupW, hb, hc, hm, hsl] at hp
          rw [← hp.1, ← hp.2.2]
          exact goodGroup_mergeSameLine cp runs item hcur hm.1
        · have hnl : isNextLine item li ∧ alignedLeft item cp := hm.2.resolve_right hsl
          refine ⟨by simpa [stepGroupW, hb, hc, hm, hsl, hnl] using h.1, ?_⟩
          intro p l rs hp
          simp [stepGroupW, hb, hc, hm, hsl, hnl] at hp
          rw [← hp.1, ← hp.2.2]
          exact goodGroup_mergeNextLine cp runs item hcur hm.1
      · refine ⟨?_, ?_⟩
        · intro pr hp
          simp [stepGroupW, hb, hc, hm] at hp
          rcases hp with h1 | h2
          · exact h.1 pr h1
          · rw [h2]; exact hcur
        · intro p l rs hp
          simp [stepGroupW, hb, hc, hm] at hp
          rw [← hp.1, ← hp.2.2]
          exact goodGroup_newPara item

lemma wfW_foldl (l : List TextItem) (s : GStateW) (h : wfW s) :
    wfW (l.foldl stepGroupW s) := by
  induction l generalizing s with
  | nil => exact h
  | cons a l ih => exact ih _ (wfW_step s a h)

lemma goodGroup_groupWithRuns (items : List TextItem) :
    ∀ pr ∈ groupWithRuns items, goodGroup pr := by
  by_cases h : items = []
  · simp [groupWithRuns, h]
  · intro pr hp
    rw [groupWithRuns, if_neg h, groupPassW] at hp
    have hwf : wfW ((sortItems items).foldl stepGroupW ⟨[], none⟩) :=
      wfW_foldl _ _ (by constructor <;> simp [GStateW.paragraphs])
    cases hc : ((sortItems items).foldl stepGroupW ⟨[], none⟩).current with
    | none =>
      rw [finishGroupW, hc] at hp
      exact hwf.1 pr hp
    | some q =>
      obtain ⟨p, li, runs⟩ := q
      rw [finishGroupW, hc] at hp
      rcases List.mem_append.mp hp with h1 | h2
      · exact hwf.1 pr h1
      · simp at h2
        rw [h2]
        exact hwf.2 p li runs hc

/-! Spec-modelled definitions.  The spec's Refinement Stage (line-height and
alignment inference over a paragraph's lines) and its optional
`semanticGroupId` run tag have no producing code under `src/`: the renderer
consumes `item.lineHeight` (with the comment "Priority: Calculated (PDF
Y-delta)"), `item.textAlign` and `item.lines`, but the `Paragraph` produced by
`paragraph-grouper.ts` carries none of them.  The definitions below are
modelled from the spec's words (§3, §4.3). -/

/-- Modelled from the spec: the y-difference `Li[0].y − Li+1[0].y` between the
first runs of each adjacent pair of lines of a paragraph (missing from src;
spec §4.3, Line height). -/
def adjacentFirstRunDiffs (lines : List (List TextItem)) : List ℚ :=
  (lines.zip lines.tail).filterMap fun pr =>
    match pr.1.head?, pr.2.head? with
    | some a, some b => some (a.y - b.y)
    | _, _ => none

/-- Modelled from the spec: the Refinement Stage's line-height estimate — the
mean of the positive adjacent first-run y-differences, unset when no positive
difference exists (missing from src; spec §4.3, Line height). -/
def refineLineHeight (lines : List (List TextItem)) : Option ℚ :=
  let positives := (adjacentFirstRunDiffs lines).filter fun d => decide (0 < d)
  if positives.isEmpty then none
  else some (positives.sum / (positives.length : ℚ))

/-- Modelled from the spec: the alignment classification values
(spec §3, `textAlign`). -/
inductive TextAlign where
  | LEFT
  | CENTER
  | RIGHT
deriving DecidableEq, Repr

/-- Modelled from the spec: a line's left edge (first run's `x`) and right
edge (last run's `x + width`), when the line is non-empty (spec §4.3). -/
def lineEdges (line : List TextItem) : Option (ℚ × ℚ) :=
  match line.head?, line.getLast? with
  | some f, some l => some (f.x, l.x + l.width)
  | _, _ => none

/-- Modelled from the spec: the per-line centre test
`|centerOffsetExpected − actualLeftOffset| ≤ 5` with
`centerOffsetExpected = (paragraph.width − lineWidth) / 2` and
`actualLeftOffset = lineLeft − paragraph.x` (spec §4.3). -/
def centerOK (paraX paraWidth : ℚ) (line : List TextItem) : Bool :=
  match lineEdges line with
  | some pr =>
      decide (mathAbs ((paraWidth - (pr.2 - pr.1)) / 2 - (pr.1 - paraX)) ≤ 5)
  | none => true

/-- Modelled from the spec: the per-line right-edge test
`|paragraph.right − lineRight| ≤ 5` (spec §4.3). -/
def rightOK (paraX paraWidth : ℚ) (line : List TextItem) : Bool :=
  match lineEdges line with
  | some pr => decide (mathAbs ((paraX + paraWidth) - pr.2) ≤ 5)
  | none => true

/-- Modelled from the spec: the Refinement Stage's alignment classification —
`CENTER` if every line passes the centre test (checked first), else `RIGHT`
if every line passes the right-edge test, else `LEFT`; single-line paragraphs
are left unclassified (missing from src; spec §4.3). -/
def classifyAlignment (paraX paraWidth : ℚ) (lines : List (List TextItem)) :
    Option TextAlign :=
  if lines.length ≤ 1 then none
  else if lines.all (centerOK paraX paraWidth) then some TextAlign.CENTER
  else if lines.all (rightOK paraX paraWidth) then some TextAlign.RIGHT
  else some TextAlign.LEFT

/-- Modelled from the spec: an input run together with the optional opaque
`semanticGroupId` tag of spec §3.  The source `TextItem` interface declares no
such field; TypeScript's structural typing lets callers pass objects that
carry the extra property, and `groupTextItems` never reads it. -/
structure TaggedTextItem where
  item : TextItem
  semanticGroupId : Option String
deriving DecidableEq, Repr

/-- Grouping a sequence of tagged runs: the engine receives only the
underlying `TextItem` data. -/
def groupTaggedItems (ts : List TaggedTextItem) : List Paragraph :=
  groupTextItems (ts.map TaggedTextItem.item)

/-! Concrete runs used by witnesses and counterexamples. -/

/-- A sample run: `"A"` at the origin `(0, 700)`, width 50, font size 12. -/
def sampleRun : TextItem :=
  { str := ['A'], x := 0, y := 700, width := 50, height := 12, fontSize := 12,
    fontFamily := "Arial", fontWeight := Sum.inr 400, fontStyle := "normal",
    color := some "black", letterSpacing := none, lineHeight := none, transform := [] }

/-- A whitespace-only run. -/
def blankRun : TextItem := { sampleRun with str := [' ', ' '] }

/-- A same-style run one plausible line below `sampleRun` (vertical gap 18 =
fontSize × 1.5, left edges 2 apart). -/
def nextB : TextItem := { sampleRun with str := ['B'], y := 682, x := 2 }

/-- A run with the geometry of `nextB` but a different color. -/
def redC : TextItem := { sampleRun with str := ['C'], y := 682, x := 2, color := some "red" }

/-- The second run of the three-runs-on-one-baseline scenario. -/
def c3run2 : TextItem := { sampleRun with str := ['B'], x := 55 }

/-- The third run of that scenario: its horizontal gap to `c3run2` is
`255 − (55 + 50) = 150` units. -/
def c3run3 : TextItem := { sampleRun with str := ['C'], x := 255 }

/-- A same-baseline run whose text begins with a tab character. -/
def tabB : TextItem := { sampleRun with str := ['\t', 'B'], x := 55 }

/-! Claim theorems. -/

/-- C1: every run whose text is non-whitespace after trimming contributes its
text to exactly one output paragraph and every blank run is dropped before any
test.  Formally: the runs recorded per paragraph by the enriched pass flatten
to a permutation of the non-blank input runs (no duplication, no omission);
the enriched pass projects onto `groupTextItems`; each paragraph's text is
exactly the append-rule fold of its recorded runs' texts; and a blank run
leaves the grouping state untouched (it never starts, extends, or closes a
paragraph). -/
theorem claim1_run_coverage :
    (∀ items : List TextItem,
        (((groupWithRuns items).map Prod.snd).flatten).Perm
          (items.filter fun i => decide (¬ blankStr i.str))) ∧
    (∀ items : List TextItem,
        groupTextItems items = (groupWithRuns items).map Prod.fst) ∧
    (∀ items : List TextItem, ∀ pr ∈ groupWithRuns items,
        ∃ hd tl, pr.2 = hd :: tl ∧ pr.1.text = textOfRuns hd tl) ∧
    (∀ (s : GState) (item : TextItem), blankStr item.str → stepGroup s item = s) := by
  refine ⟨?_, groupTextItems_eq_projW, ?_, stepGroup_of_blank⟩
  · intro items
    rw [flatten_groupWithRuns]
    exact (sortItems_perm items).filter _
  · intro items pr hpr
    obtain ⟨hd, tl, h1, _, _, _, _, _, _, _, _, _, htext, _⟩ :=
      goodGroup_groupWithRuns items pr hpr
    exact ⟨hd, tl, h1, htext⟩

/-- Witness for C1 at a concrete input: a blank run and a letter run. -/
theorem claim1_run_coverage_witness :
    (((groupWithRuns [blankRun, sampleRun]).map Prod.snd).flatten).Perm
        ([blankRun, sampleRun].filter fun i => decide (¬ blankStr i.str)) ∧
    stepGroup ⟨[], none⟩ blankRun = ⟨[], none⟩ ∧
    (∃ hd tl, ((newPara sampleRun, [sampleRun]) : Paragraph × List TextItem).2 = hd :: tl ∧
      (newPara sampleRun).text = textOfRuns hd tl) := by
  refine ⟨claim1_run_coverage.1 [blankRun, sampleRun],
    claim1_run_coverage.2.2.2 ⟨[], none⟩ blankRun (by decide), ?_⟩
  have hG : groupWithRuns [sampleRun] = [(newPara sampleRun, [sampleRun])] := by
    simp [groupWithRuns, groupPassW, sortItems, List.mergeSort, stepGroupW,
      finishGroupW, show ¬ blankStr sampleRun.str by decide]
  exact claim1_run_coverage.2.2.1 [sampleRun] (newPara sampleRun, [sampleRun])
    (by rw [hG]; exact List.mem_singleton.mpr rfl)

lemma mathAbs_sub_comm (a b : ℚ) : mathAbs (a - b) = mathAbs (b - a) := by
  unfold mathAbs
  split_ifs <;> linarith

/-- C4 amended: the comparator treats y-differences of more than 5 page units
by y descending and otherwise falls back to x ascending, it is antisymmetric,
the grouping pass consumes exactly the sorted sequence, and the sorted
sequence is a permutation of the input.  (The induced ordering is, however,
not a total order: see the counterexample.) -/
theorem claim4_comparator_and_order :
    (∀ a b : TextItem, mathAbs (b.y - a.y) > 5 → compareItems a b = b.y - a.y) ∧
    (∀ a b : TextItem, mathAbs (b.y - a.y) ≤ 5 → compareItems a b = a.x - b.x) ∧
    (∀ a b : TextItem, compareItems b a = -compareItems a b) ∧
    (∀ items : List TextItem, groupTextItems items = groupPass (sortItems items)) ∧
    (∀ items : List TextItem, (sortItems items).Perm items) := by
  refine ⟨?_, ?_, ?_, ?_, sortItems_perm⟩
  · intro a b h
    simp [compareItems, h]
  · intro a b h
    simp [compareItems, not_lt.mpr h]
  · intro a b
    unfold compareItems
    dsimp only
    rw [mathAbs_sub_comm a.y b.y]
    split_ifs <;> ring
  · intro items
    by_cases h : items = []
    · subst h
      simp [groupTextItems, sortItems, List.mergeSort, groupPass, finishGroup]
    · rw [groupTextItems, if_neg h]

/-- Witness for C4 at concrete runs: a pair with a significant y-difference,
a pair inside the tolerance band, antisymmetry on a pair, and the
pass-consumes-sorted-order equation on a concrete list. -/
theorem claim4_comparator_and_order_witness :
    compareItems blankRun { sampleRun with y := 680 } = (680 : ℚ) - 700 ∧
    compareItems sampleRun { sampleRun with x := 9, y := 698 } = (0 : ℚ) - 9 ∧
    compareItems { sampleRun with x := 9, y := 698 } sampleRun =
      -compareItems sampleRun { sampleRun with x := 9, y := 698 } ∧
    groupTextItems [sampleRun] = groupPass (sortItems [sampleRun]) := by
  refine ⟨?_, ?_, claim4_comparator_and_order.2.2.1 sampleRun { sampleRun with x := 9, y := 698 },
    claim4_comparator_and_order.2.2.2.1 [sampleRun]⟩
  · have h := claim4_comparator_and_order.1 blankRun { sampleRun with y := 680 }
      (by norm_num [mathAbs, blankRun, sampleRun])
    simpa [blankRun, sampleRun] using h
  · have h := claim4_comparator_and_order.2.1 sampleRun { sampleRun with x := 9, y := 698 }
      (by norm_num [mathAbs, sampleRun])
    simpa [sampleRun] using h

/-- C4 counterexample: the strict before relation induced by the comparator
is not transitive — the run at `(x 5, y 4)` sorts before the one at
`(x 10, y 8)`, the run at `(x 0, y 0)` sorts before the one at `(x 5, y 4)`,
yet the run at `(x 0, y 0)` sorts after the one at `(x 10, y 8)` — so the
claimed ordering is not a total order. -/
theorem claim4_counterexample :
    compareItems { sampleRun with x := 5, y := 4 } { sampleRun with x := 10, y := 8 } < 0 ∧
    compareItems { sampleRun with x := 0, y := 0 } { sampleRun with x := 5, y := 4 } < 0 ∧
    0 < compareItems { sampleRun with x := 0, y := 0 } { sampleRun with x := 10, y := 8 } := by
  norm_num [compareItems, mathAbs, sampleRun]

/-- C2: with a paragraph open, a non-blank style-compatible run passing the
next-line test (`0 < last.y − r.y < r.fontSize × 2.5`) and the left-alignment
test (`|r.x − paragraph.x| < 20`) is merged into the open paragraph, whose
identity fields are kept; a run that is not style-compatible, or that fails
both the same-line test (`|r.y − last.y| < max(2, r.fontSize × 0.25)`) and
that next-line test, closes the paragraph (it is pushed to the output) and
starts a new paragraph from the run. -/
theorem claim2_merge_and_close (s : GState) (cp : Paragraph) (li item : TextItem)
    (hc : s.current = some (cp, li)) (hb : ¬ blankStr item.str) :
    ((sameStyle item cp → 0 < li.y - item.y → li.y - item.y < item.fontSize * 2.5 →
      mathAbs (item.x - cp.x) < 20 →
      (stepGroup s item).paragraphs = s.paragraphs ∧
      ∃ p', (stepGroup s item).current = some (p', item) ∧
        p'.text = appendText cp.text item.str ∧ p'.x = cp.x ∧ p'.y = cp.y ∧
        p'.fontSize = cp.fontSize ∧ p'.fontFamily = cp.fontFamily ∧
        p'.fontWeight = cp.fontWeight ∧ p'.fontStyle = cp.fontStyle ∧
        p'.color = cp.color)) ∧
    ((¬ sameStyle item cp ∨
        (¬ (mathAbs (item.y - li.y) < mathMax 2 (item.fontSize * 0.25)) ∧
         ¬ (0 < li.y - item.y ∧ li.y - item.y < item.fontSize * 2.5 ∧
            mathAbs (item.x - cp.x) < 20))) →
      stepGroup s item =
        { paragraphs := s.paragraphs ++ [cp], current := some (newPara item, item) }) := by
  constructor
  · intro hst h1 h2 h3
    have hnl : isNextLine item li := ⟨h1, h2⟩
    have hal : alignedLeft item cp := h3
    by_cases hsl : sameLine item li
    · rw [stepGroup_merge_sameLine s cp li item hc hb hst hsl]
      exact ⟨rfl, mergeSameLine cp item, rfl, rfl, rfl, rfl, rfl, rfl, rfl, rfl, rfl⟩
    · rw [stepGroup_merge_nextLine s cp li item hc hb hst hnl hal hsl]
      exact ⟨rfl, mergeNextLine cp item, rfl, rfl, rfl, rfl, rfl, rfl, rfl, rfl, rfl⟩
  · intro hclose
    apply stepGroup_close s cp li item hc hb
    rintro ⟨hst, hdisj⟩
    rcases hclose with h | ⟨hnsl, hnnl⟩
    · exact h hst
    · rcases hdisj with ⟨hnl, hal⟩ | hsl
      · exact hnnl ⟨hnl.1, hnl.2, hal⟩
      · exact hnsl hsl

/-- Witness for C2 at concrete runs: `nextB` is merged into the open sample
paragraph, and `redC` (same geometry, different color) closes it. -/
theorem claim2_merge_and_close_witness :
    ((stepGroup ⟨[], some (newPara sampleRun, sampleRun)⟩ nextB).paragraphs = [] ∧
      ∃ p', (stepGroup ⟨[], some (newPara sampleRun, sampleRun)⟩ nextB).current =
          some (p', nextB) ∧
        p'.text = appendText (newPara sampleRun).text nextB.str ∧
        p'.x = (newPara sampleRun).x ∧ p'.y = (newPara sampleRun).y ∧
        p'.fontSize = (newPara sampleRun).fontSize ∧
        p'.fontFamily = (newPara sampleRun).fontFamily ∧
        p'.fontWeight = (newPara sampleRun).fontWeight ∧
        p'.fontStyle = (newPara sampleRun).fontStyle ∧
        p'.color = (newPara sampleRun).color) ∧
    stepGroup ⟨[], some (newPara sampleRun, sampleRun)⟩ redC =
      ⟨[newPara sampleRun], some (newPara redC, redC)⟩ := by
  constructor
  · exact (claim2_merge_and_close ⟨[], some (newPara sampleRun, sampleRun)⟩
      (newPara sampleRun) sampleRun nextB rfl (by decide)).1
      (by norm_num [sameStyle, mathAbs, newPara, nextB, sampleRun])
      (by norm_num [nextB, sampleRun])
      (by norm_num [nextB, sampleRun])
      (by norm_num [mathAbs, newPara, nextB, sampleRun])
  · have h := (claim2_merge_and_close ⟨[], some (newPara sampleRun, sampleRun)⟩
      (newPara sampleRun) sampleRun redC rfl (by decide)).2
      (Or.inl (by simp [sameStyle, newPara, redC, sampleRun]))
    simpa using h

/-- C3 amended: `groupTextItems` applies no horizontal-gap/column test — a
non-blank run that is style-compatible with the open paragraph and passes the
same-line test is merged into the current paragraph whatever its horizontal
gap to the preceding run; in particular, three same-style runs on one
baseline with a 150-unit gap between run 2 and run 3 form one paragraph. -/
theorem claim3_no_gap_test (s : GState) (cp : Paragraph) (li item : TextItem)
    (hc : s.current = some (cp, li)) (hb : ¬ blankStr item.str)
    (hst : sameStyle item cp)
    (hsl : mathAbs (item.y - li.y) < mathMax 2 (item.fontSize * 0.25)) :
    (stepGroup s item).paragraphs = s.paragraphs ∧
    (stepGroup s item).current = some (mergeSameLine cp item, item) := by
  rw [stepGroup_merge_sameLine s cp li item hc hb hst hsl]
  exact ⟨rfl, rfl⟩

/-- Witness for C3's amended theorem: the wide-gap run `c3run3` is merged
into the open sample paragraph. -/
theorem claim3_no_gap_test_witness :
    (stepGroup ⟨[], some (newPara sampleRun, sampleRun)⟩ c3run3).paragraphs = [] ∧
    (stepGroup ⟨[], some (newPara sampleRun, sampleRun)⟩ c3run3).current =
      some (mergeSameLine (newPara sampleRun) c3run3, c3run3) :=
  claim3_no_gap_test _ _ _ _ rfl (by decide)
    (by norm_num [sameStyle, mathAbs, newPara, c3run3, sampleRun])
    (by norm_num [mathAbs, mathMax, c3run3, sampleRun])

/-- C3 counterexample: three same-style runs on one baseline with a 150-unit
horizontal gap between run 2 and run 3 — a gap exceeding both claimed
wide-gap thresholds (`fontSize × 3 = 36` and the fixed 100) — are grouped
into a single paragraph: run 3 does not start a new paragraph. -/
theorem claim3_counterexample :
    c3run3.x - (c3run2.x + c3run2.width) = 150 ∧
    c3run3.fontSize * 3 < 150 ∧ (100 : ℚ) < 150 ∧
    groupTextItems [sampleRun, c3run2, c3run3] =
      [mergeSameLine (mergeSameLine (newPara sampleRun) c3run2) c3run3] := by
  refine ⟨by norm_num [c3run3, c3run2, sampleRun], by norm_num [c3run3, sampleRun],
    by norm_num, ?_⟩
  have hsort : sortItems [sampleRun, c3run2, c3run3] = [sampleRun, c3run2, c3run3] := by
    apply sortItems_triple <;> norm_num [compareItems, mathAbs, sampleRun, c3run2, c3run3]
  have h1 : stepGroup ⟨[], none⟩ sampleRun = ⟨[], some (newPara sampleRun, sampleRun)⟩ :=
    stepGroup_of_none _ _ (by decide) rfl
  have h2 : stepGroup ⟨[], some (newPara sampleRun, sampleRun)⟩ c3run2 =
      ⟨[], some (mergeSameLine (newPara sampleRun) c3run2, c3run2)⟩ :=
    stepGroup_merge_sameLine _ _ _ _ rfl (by decide)
      (by norm_num [sameStyle, mathAbs, newPara, c3run2, sampleRun])
      (by norm_num [sameLine, mathAbs, mathMax, c3run2, sampleRun])
  have h3 : stepGroup ⟨[], some (mergeSameLine (newPara sampleRun) c3run2, c3run2)⟩ c3run3 =
      ⟨[], some (mergeSameLine (mergeSameLine (newPara sampleRun) c3run2) c3run3, c3run3)⟩ :=
    stepGroup_merge_sameLine _ _ _ _ rfl (by decide)
      (by norm_num [sameStyle, mathAbs, mergeSameLine, newPara, c3run2, c3run3, sampleRun])
      (by norm_num [sameLine, mathAbs, mathMax, c3run2, c3run3, sampleRun])
  simp [groupTextItems, groupPass, hsort, h1, h2, h3, finishGroup]

/-- C5: every output paragraph reports the origin (`x`, `y`) and the style
(`fontSize`, `fontFamily`, `fontWeight`, `fontStyle`, `color`) of its first
run, every run merged into it agrees exactly on `fontFamily`, `fontWeight`,
`fontStyle` and `color` and is within 1 unit in `fontSize`; the Scenario-3
pair (same geometry as Scenario 2, different color) yields two separate
single-run paragraphs. -/
theorem claim5_representative_style :
    (∀ items : List TextItem, ∀ pr ∈ groupWithRuns items,
      ∃ hd tl, pr.2 = hd :: tl ∧
        pr.1.x = hd.x ∧ pr.1.y = hd.y ∧ pr.1.fontSize = hd.fontSize ∧
        pr.1.fontFamily = hd.fontFamily ∧ pr.1.fontWeight = hd.fontWeight ∧
        pr.1.fontStyle = hd.fontStyle ∧ pr.1.color = hd.color ∧
        ∀ r ∈ pr.2, r.fontFamily = pr.1.fontFamily ∧
          mathAbs (r.fontSize - pr.1.fontSize) < 1 ∧
          r.fontWeight = pr.1.fontWeight ∧ r.fontStyle = pr.1.fontStyle ∧
          r.color = pr.1.color) ∧
    (∀ items : List TextItem,
        groupTextItems items = (groupWithRuns items).map Prod.fst) ∧
    groupTextItems [sampleRun, redC] = [newPara sampleRun, newPara redC] := by
  refine ⟨?_, groupTextItems_eq_projW, ?_⟩
  · intro items pr hpr
    obtain ⟨hd, tl, h1, hx, hy, hfs, hff, hfw, hfsty, hcol, _, _, _, hall⟩ :=
      goodGroup_groupWithRuns items pr hpr
    exact ⟨hd, tl, h1, hx, hy, hfs, hff, hfw, hfsty, hcol, fun r hr => hall r hr⟩
  · have hsort : sortItems [sampleRun, redC] = [sampleRun, redC] :=
      sortItems_pair _ _ (by norm_num [compareItems, mathAbs, sampleRun, redC])
    have h1 : stepGroup ⟨[], none⟩ sampleRun = ⟨[], some (newPara sampleRun, sampleRun)⟩ :=
      stepGroup_of_none _ _ (by decide) rfl
    have h2 : stepGroup ⟨[], some (newPara sampleRun, sampleRun)⟩ redC =
        ⟨[newPara sampleRun], some (newPara redC, redC)⟩ := by
      have h := stepGroup_close ⟨[], some (newPara sampleRun, sampleRun)⟩
        (newPara sampleRun) sampleRun redC rfl (by decide) ?_
      · simpa using h
      · rintro ⟨hst, _⟩
        revert hst
        simp [sameStyle, newPara, redC, sampleRun]
    simp [groupTextItems, groupPass, hsort, h1, h2, finishGroup]

/-- Witness for C5: the single-run group of the sample run satisfies the
first-run representation property. -/
theorem claim5_representative_style_witness :
    ∃ hd tl, ((newPara sampleRun, [sampleRun]) : Paragraph × List TextItem).2 = hd :: tl ∧
      (newPara sampleRun).x = hd.x ∧ (newPara sampleRun).y = hd.y ∧
      (newPara sampleRun).fontSize = hd.fontSize ∧
      (newPara sampleRun).fontFamily = hd.fontFamily ∧
      (newPara sampleRun).fontWeight = hd.fontWeight ∧
      (newPara sampleRun).fontStyle = hd.fontStyle ∧
      (newPara sampleRun).color = hd.color ∧
      ∀ r ∈ ((newPara sampleRun, [sampleRun]) : Paragraph × List TextItem).2,
        r.fontFamily = (newPara sampleRun).fontFamily ∧
        mathAbs (r.fontSize - (newPara sampleRun).fontSize) < 1 ∧
        r.fontWeight = (newPara sampleRun).fontWeight ∧
        r.fontStyle = (newPara sampleRun).fontStyle ∧
        r.color = (newPara sampleRun).color := by
  have hG : groupWithRuns [sampleRun] = [(newPara sampleRun, [sampleRun])] := by
    simp [groupWithRuns, groupPassW, sortItems, List.mergeSort, stepGroupW,
      finishGroupW, show ¬ blankStr sampleRun.str by decide]
  exact claim5_representative_style.1 [sampleRun] (newPara sampleRun, [sampleRun])
    (by rw [hG]; exact List.mem_singleton.mpr rfl)

/-- C6 amended: on every merge the run's text is appended after exactly one
separator space — the separator being omitted only when the run's text
already begins with a space character (U+0020), not for other whitespace —
never a newline that was not already present; on a same-line merge the width
becomes `max(width, (r.x + r.width) − paragraph.x)` and on a next-line merge
`max(width, r.width)`. -/
theorem claim6_merge_text_rule (s : GState) (cp : Paragraph) (li item : TextItem)
    (hc : s.current = some (cp, li)) (hb : ¬ blankStr item.str)
    (hst : sameStyle item cp)
    (hm : (isNextLine item li ∧ alignedLeft item cp) ∨ sameLine item li) :
    ∃ p', (stepGroup s item).current = some (p', item) ∧
      (stepGroup s item).paragraphs = s.paragraphs ∧
      p'.text = cp.text ++ (if startsWithSpace item.str then [] else [' ']) ++ item.str ∧
      (sameLine item li → p'.width = mathMax cp.width ((item.x + item.width) - cp.x)) ∧
      (¬ sameLine item li → p'.width = mathMax cp.width item.width) ∧
      (∀ c ∈ p'.text, c ∈ cp.text ∨ c ∈ item.str ∨ c = ' ') ∧
      ('\n' ∈ p'.text → '\n' ∈ cp.text ∨ '\n' ∈ item.str) := by
  have hmemP : ∀ p' : Paragraph, p'.text = appendText cp.text item.str →
      (∀ c ∈ p'.text, c ∈ cp.text ∨ c ∈ item.str ∨ c = ' ') ∧
      ('\n' ∈ p'.text → '\n' ∈ cp.text ∨ '\n' ∈ item.str) := by
    intro p' hp
    have hall : ∀ c ∈ p'.text, c ∈ cp.text ∨ c ∈ item.str ∨ c = ' ' := by
      intro c hcm
      rw [hp] at hcm
      simp only [appendText, List.mem_append] at hcm
      rcases hcm with (h1 | h2) | h3
      · exact Or.inl h1
      · by_cases hs : startsWithSpace item.str
        · simp [hs] at h2
        · simp [hs] at h2
          exact Or.inr (Or.inr h2)
      · exact Or.inr (Or.inl h3)
    refine ⟨hall, fun h10 => ?_⟩
    rcases hall _ h10 with h | h | h
    · exact Or.inl h
    · exact Or.inr h
    · exact absurd h (by decide)
  by_cases hsl : sameLine item li
  · rw [stepGroup_merge_sameLine s cp li item hc hb hst hsl]
    obtain ⟨hall, h10⟩ := hmemP (mergeSameLine cp item) rfl
    exact ⟨mergeSameLine cp item, rfl, rfl, rfl, fun _ => rfl, fun h => absurd hsl h,
      hall, h10⟩
  · have hnl := hm.resolve_right hsl
    rw [stepGroup_merge_nextLine s cp li item hc hb hst hnl.1 hnl.2 hsl]
    obtain ⟨hall, h10⟩ := hmemP (mergeNextLine cp item) rfl
    exact ⟨mergeNextLine cp item, rfl, rfl, rfl, fun h => absurd h hsl, fun _ => rfl,
      hall, h10⟩

/-- Witness for C6's amended theorem: the next-line run `nextB` is merged
into the open sample paragraph with a single separator space. -/
theorem claim6_merge_text_rule_witness :
    ∃ p', (stepGroup ⟨[], some (newPara sampleRun, sampleRun)⟩ nextB).current =
        some (p', nextB) ∧
      (stepGroup ⟨[], some (newPara sampleRun, sampleRun)⟩ nextB).paragraphs = [] ∧
      p'.text = (newPara sampleRun).text ++
        (if startsWithSpace nextB.str then [] else [' ']) ++ nextB.str ∧
      (sameLine nextB sampleRun →
        p'.width = mathMax (newPara sampleRun).width
          ((nextB.x + nextB.width) - (newPara sampleRun).x)) ∧
      (¬ sameLine nextB sampleRun →
        p'.width = mathMax (newPara sampleRun).width nextB.width) ∧
      (∀ c ∈ p'.text, c ∈ (newPara sampleRun).text ∨ c ∈ nextB.str ∨ c = ' ') ∧
      ('\n' ∈ p'.text → '\n' ∈ (newPara sampleRun).text ∨ '\n' ∈ nextB.str) :=
  claim6_merge_text_rule ⟨[], some (newPara sampleRun, sampleRun)⟩
    (newPara sampleRun) sampleRun nextB rfl (by decide)
    (by norm_num [sameStyle, mathAbs, newPara, nextB, sampleRun])
    (Or.inl ⟨by constructor <;> norm_num [nextB, sampleRun],
      by norm_num [alignedLeft, mathAbs, newPara, nextB, sampleRun]⟩)

/-- C6 counterexample: a same-baseline run whose text begins with a tab — a
whitespace character that is not a space — still receives a separator space
on merge: the merged text is `"A \tB"`, refuting the claim that no separator
is added when the run's text begins with whitespace. -/
theorem claim6_counterexample :
    Char.isWhitespace '\t' = true ∧
    tabB.str.head? = some '\t' ∧
    ¬ startsWithSpace tabB.str ∧
    (groupTextItems [sampleRun, tabB]).map Paragraph.text = [['A', ' ', '\t', 'B']] := by
  refine ⟨by decide, by decide, by decide, ?_⟩
  have hsort : sortItems [sampleRun, tabB] = [sampleRun, tabB] :=
    sortItems_pair _ _ (by norm_num [compareItems, mathAbs, sampleRun, tabB])
  have h1 : stepGroup ⟨[], none⟩ sampleRun = ⟨[], some (newPara sampleRun, sampleRun)⟩ :=
    stepGroup_of_none _ _ (by decide) rfl
  have h2 : stepGroup ⟨[], some (newPara sampleRun, sampleRun)⟩ tabB =
      ⟨[], some (mergeSameLine (newPara sampleRun) tabB, tabB)⟩ :=
    stepGroup_merge_sameLine _ _ _ _ rfl (by decide)
      (by norm_num [sameStyle, mathAbs, newPara, tabB, sampleRun])
      (by norm_num [sameLine, mathAbs, mathMax, tabB, sampleRun])
  have hG : groupTextItems [sampleRun, tabB] = [mergeSameLine (newPara sampleRun) tabB] := by
    simp [groupTextItems, groupPass, hsort, h1, h2, finishGroup]
  rw [hG]
  simp [mergeSameLine, appendText, startsWithSpace, newPara, sampleRun, tabB]

/-- C7 (spec-modelled): the Refinement Stage's line height is the mean of the
positive y-differences between the first runs of adjacent lines — only
positive differences are accumulated — and is left unset when no positive
difference exists; two same-style runs with vertical gap fontSize × 1.5 and
left edges within 5 units merge into a single paragraph, and the two
resulting lines give a line height exactly equal to the gap. -/
theorem claim7_line_height :
    (∀ lines : List (List TextItem),
      (refineLineHeight lines = none ↔
        (adjacentFirstRunDiffs lines).filter (fun d => decide (0 < d)) = []) ∧
      (∀ l : List ℚ,
        (adjacentFirstRunDiffs lines).filter (fun d => decide (0 < d)) = l → l ≠ [] →
        refineLineHeight lines = some (l.sum / (l.length : ℚ)))) ∧
    (∀ a b : TextItem,
      b.fontFamily = a.fontFamily → b.fontSize = a.fontSize →
      b.fontWeight = a.fontWeight → b.fontStyle = a.fontStyle → b.color = a.color →
      a.y - b.y = b.fontSize * 1.5 → 5 < a.y - b.y → mathAbs (b.x - a.x) < 5 →
      ¬ blankStr a.str → ¬ blankStr b.str →
      groupTextItems [a, b] = [mergeNextLine (newPara a) b] ∧
      refineLineHeight [[a], [b]] = some (a.y - b.y)) := by
  constructor
  · intro lines
    constructor
    · simp [refineLineHeight, List.isEmpty_iff]
    · intro l hl hne
      simp [refineLineHeight, hl, List.isEmpty_iff, hne]
  · intro a b hff hfs hfw hfsty hcol hgap hbig hal hba hbb
    have hfspos : 0 < b.fontSize := by linarith
    have h1neg : b.y - a.y < 0 := by linarith
    have habs : mathAbs (b.y - a.y) = a.y - b.y := by
      rw [mathAbs, if_pos h1neg]; ring
    have hcmp : compareItems a b ≤ 0 := by
      unfold compareItems
      dsimp only
      rw [if_pos (by rw [habs]; linarith)]
      linarith
    have hsort := sortItems_pair a b hcmp
    have hstep1 : stepGroup ⟨[], none⟩ a = ⟨[], some (newPara a, a)⟩ :=
      stepGroup_of_none _ _ hba rfl
    have hst : sameStyle b (newPara a) := by
      refine ⟨hff, ?_, hfw, hfsty, hcol⟩
      show mathAbs (b.fontSize - a.fontSize) < 1
      rw [hfs, mathAbs]
      norm_num
    have hnl : isNextLine b a := by
      refine ⟨by linarith, ?_⟩
      show a.y - b.y < b.fontSize * 2.5
      rw [hgap]
      nlinarith
    have hal2 : alignedLeft b (newPara a) := by
      show mathAbs (b.x - a.x) < 20
      linarith
    have hnsl : ¬ sameLine b a := by
      intro hslc
      unfold sameLine at hslc
      rw [habs] at hslc
      unfold mathMax at hslc
      split_ifs at hslc with hq
      · nlinarith
      · linarith
    have hstep2 : stepGroup ⟨[], some (newPara a, a)⟩ b =
        ⟨[], some (mergeNextLine (newPara a) b, b)⟩ :=
      stepGroup_merge_nextLine _ _ _ _ rfl hbb hst hnl hal2 hnsl
    constructor
    · have hne : ([a, b] : List TextItem) ≠ [] := by simp
      rw [groupTextItems, if_neg hne, groupPass, hsort]
      simp [List.foldl, hstep1, hstep2, finishGroup]
    · have hdiffs : adjacentFirstRunDiffs [[a], [b]] = [a.y - b.y] := by
        simp [adjacentFirstRunDiffs]
      have hpos : (0 : ℚ) < a.y - b.y := by linarith
      simp [refineLineHeight, hdiffs, hpos]

/-- Witness for C7: the sample run and the run 18 units below it (gap =
fontSize × 1.5) form one paragraph whose two lines give line height 18. -/
theorem claim7_line_height_witness :
    (refineLineHeight ([] : List (List TextItem)) = none ↔
      (adjacentFirstRunDiffs ([] : List (List TextItem))).filter
        (fun d => decide (0 < d)) = []) ∧
    groupTextItems [sampleRun, nextB] = [mergeNextLine (newPara sampleRun) nextB] ∧
    refineLineHeight [[sampleRun], [nextB]] = some (sampleRun.y - nextB.y) := by
  refine ⟨(claim7_line_height.1 []).1, ?_⟩
  exact claim7_line_height.2 sampleRun nextB rfl rfl rfl rfl rfl
    (by norm_num [sampleRun, nextB])
    (by norm_num [sampleRun, nextB])
    (by norm_num [mathAbs, sampleRun, nextB])
    (by decide) (by decide)

/-- C8 (spec-modelled): for multi-line paragraphs the Refinement Stage
classifies `CENTER` when every line passes the centre-mismatch test (checked
before `RIGHT`), else `RIGHT` when every line's right edge is within 5 of the
paragraph's right edge, else `LEFT`; single-line paragraphs are left without
an alignment classification. -/
theorem claim8_alignment (paraX paraWidth : ℚ) (lines : List (List TextItem)) :
    (lines.length ≤ 1 → classifyAlignment paraX paraWidth lines = none) ∧
    (1 < lines.length →
      ((∀ line ∈ lines, centerOK paraX paraWidth line = true) →
        classifyAlignment paraX paraWidth lines = some TextAlign.CENTER) ∧
      ((¬ ∀ line ∈ lines, centerOK paraX paraWidth line = true) →
        (∀ line ∈ lines, rightOK paraX paraWidth line = true) →
        classifyAlignment paraX paraWidth lines = some TextAlign.RIGHT) ∧
      ((¬ ∀ line ∈ lines, centerOK paraX paraWidth line = true) →
        (¬ ∀ line ∈ lines, rightOK paraX paraWidth line = true) →
        classifyAlignment paraX paraWidth lines = some TextAlign.LEFT) ∧
      ((∀ line ∈ lines, centerOK paraX paraWidth line = true) →
        (∀ line ∈ lines, rightOK paraX paraWidth line = true) →
        classifyAlignment paraX paraWidth lines = some TextAlign.CENTER)) := by
  constructor
  · intro h
    simp [classifyAlignment, h]
  · intro h
    have hn : ¬ lines.length ≤ 1 := not_le.mpr h
    refine ⟨?_, ?_, ?_, ?_⟩
    · intro hcen
      simp [classifyAlignment, hn, List.all_eq_true.mpr hcen]
    · intro hcen hri
      have hcB : lines.all (centerOK paraX paraWidth) = false :=
        Bool.eq_false_iff.mpr (by simpa [List.all_eq_true] using hcen)
      simp [classifyAlignment, hn, hcB, List.all_eq_true.mpr hri]
    · intro hcen hri
      have hcB : lines.all (centerOK paraX paraWidth) = false :=
        Bool.eq_false_iff.mpr (by simpa [List.all_eq_true] using hcen)
      have hrB : lines.all (rightOK paraX paraWidth) = false :=
        Bool.eq_false_iff.mpr (by simpa [List.all_eq_true] using hri)
      simp [classifyAlignment, hn, hcB, hrB]
    · intro hcen _
      simp [classifyAlignment, hn, List.all_eq_true.mpr hcen]

/-- Witness for C8: two concretely centred lines inside a width-100 paragraph
classify `CENTER`, and a single line is left unclassified. -/
theorem claim8_alignment_witness :
    classifyAlignment 0 100
      [[{ sampleRun with width := 100 }], [{ sampleRun with x := 30, width := 40 }]] =
      some TextAlign.CENTER ∧
    classifyAlignment 0 100 [[{ sampleRun with width := 100 }]] = none := by
  constructor
  · refine (claim8_alignment 0 100 _).2 (by norm_num) |>.1 ?_
    intro line hl
    rcases List.mem_cons.mp hl with h | h
    · subst h
      norm_num [centerOK, lineEdges, mathAbs, sampleRun]
    · rcases List.mem_cons.mp h with h2 | h2
      · subst h2
        norm_num [centerOK, lineEdges, mathAbs, sampleRun]
      · cases h2
  · exact (claim8_alignment 0 100 _).1 (by norm_num)

/-- C9 amended: `groupTextItems` consults no semantic group id — the source
`TextItem` has no such field, and the grouping output depends only on the
underlying run data, so any two tagged run sequences with the same underlying
runs group identically regardless of their tags. -/
theorem claim9_tags_ignored (ts ts' : List TaggedTextItem)
    (h : ts.map TaggedTextItem.item = ts'.map TaggedTextItem.item) :
    groupTaggedItems ts = groupTaggedItems ts' := by
  unfold groupTaggedItems
  rw [h]

/-- Witness for C9's amended theorem: retagging the sample run changes
nothing. -/
theorem claim9_tags_ignored_witness :
    groupTaggedItems [{ item := sampleRun, semanticGroupId := some "g1" }] =
      groupTaggedItems [{ item := sampleRun, semanticGroupId := some "g2" }] :=
  claim9_tags_ignored _ _ rfl

/-- C9 counterexample: two runs carrying different non-null semantic tags,
on the same baseline with matching style, are merged into one paragraph —
the engine has no semantic-id veto. -/
theorem claim9_counterexample :
    ({ item := sampleRun, semanticGroupId := some "g1" } : TaggedTextItem).semanticGroupId =
      some "g1" ∧
    ({ item := c3run2, semanticGroupId := some "g2" } : TaggedTextItem).semanticGroupId =
      some "g2" ∧
    some "g1" ≠ some "g2" ∧
    groupTaggedItems
      [{ item := sampleRun, semanticGroupId := some "g1" },
       { item := c3run2, semanticGroupId := some "g2" }] =
      [mergeSameLine (newPara sampleRun) c3run2] := by
  refine ⟨rfl, rfl, by simp, ?_⟩
  unfold groupTaggedItems
  simp only [List.map]
  have hsort : sortItems [sampleRun, c3run2] = [sampleRun, c3run2] :=
    sortItems_pair _ _ (by norm_num [compareItems, mathAbs, sampleRun, c3run2])
  have h1 : stepGroup ⟨[], none⟩ sampleRun = ⟨[], some (newPara sampleRun, sampleRun)⟩ :=
    stepGroup_of_none _ _ (by decide) rfl
  have h2 : stepGroup ⟨[], some (newPara sampleRun, sampleRun)⟩ c3run2 =
      ⟨[], some (mergeSameLine (newPara sampleRun) c3run2, c3run2)⟩ :=
    stepGroup_merge_sameLine _ _ _ _ rfl (by decide)
      (by norm_num [sameStyle, mathAbs, newPara, c3run2, sampleRun])
      (by norm_num [sameLine, mathAbs, mathMax, c3run2, sampleRun])
  simp [groupTextItems, groupPass, hsort, h1, h2, finishGroup]

/-- C10: every paragraph returned by `groupTextItems` has text that is
non-empty after trimming — a paragraph is only seeded by a run with non-blank
text and merging only appends — so the downstream renderer's filter
`item.text.trim().length > 0` never discards an engine output. -/
theorem claim10_no_blank_paragraph (items : List TextItem) (p : Paragraph)
    (hp : p ∈ groupTextItems items) : 0 < (jsTrim p.text).length := by
  have h := groupTextItems_text_not_blank items p hp
  rw [blankStr] at h
  exact List.length_pos.mpr h

/-- Witness for C10: the paragraph produced from the sample run has
non-blank text. -/
theorem claim10_no_blank_paragraph_witness :
    0 < (jsTrim (newPara sampleRun).text).length := by
  have h1 : stepGroup ⟨[], none⟩ sampleRun = ⟨[], some (newPara sampleRun, sampleRun)⟩ :=
    stepGroup_of_none _ _ (by decide) rfl
  have hG : groupTextItems [sampleRun] = [newPara sampleRun] := by
    simp [groupTextItems, groupPass, sortItems, List.mergeSort, h1, finishGroup]
  exact claim10_no_blank_paragraph [sampleRun] (newPara sampleRun)
    (by rw [hG]; exact List.mem_singleton.mpr rfl)

end PdfImport
